import Mathlib

/-!
# Verification of the skill_cortex indexing engine

A shallow embedding, in Lean 4, of the core of the `skill_cortex`
repository: the frontmatter parser (`frontmatter.py`), the document
scanner (`scanner.py`), the index cache (`index_store.py`) and the tag
rewriter (`server.py:_update_tags_in_skill_md`), together with theorems
settling the spec claims about them.

Python text values are modelled as Lean `String` (a wrapper around
`List Char`); the host-language string primitives used by the code
(`str.strip`, `str.lower`, `str.splitlines`, `str.split`, `str.join`,
`str.startswith`) are modelled character-for-character below.  Python's
`.strip()` whitespace set is modelled by its ASCII members (space, tab,
newline, carriage return, vertical tab, form feed), and `.lower()` by
ASCII lowercasing; the documents this program manipulates are ASCII in
all relevant positions.
-/

/-! ## Python string primitives -/

/-- The ASCII characters stripped by Python's `str.strip()`
(space, tab, newline, carriage return, vertical tab, form feed). -/
def pyIsSpace (c : Char) : Bool :=
  c.toNat = 32 || c.toNat = 9 || c.toNat = 10 || c.toNat = 13 || c.toNat = 11 || c.toNat = 12

/-- `str.strip()` on a character list: drop whitespace from both ends. -/
def pyStripL (l : List Char) : List Char :=
  ((l.dropWhile pyIsSpace).reverse.dropWhile pyIsSpace).reverse

/-- Python `s.strip()`. -/
def pyStrip (s : String) : String := ⟨pyStripL s.data⟩

/-- Python `s.lstrip()`. -/
def pyLStrip (s : String) : String := ⟨s.data.dropWhile pyIsSpace⟩

/-- ASCII lowercasing of one character, as Python `str.lower()` does on ASCII. -/
def pyLowerChar (c : Char) : Char :=
  if 65 ≤ c.toNat ∧ c.toNat ≤ 90 then Char.ofNat (c.toNat + 32) else c

/-- Python `s.lower()`. -/
def pyLower (s : String) : String := ⟨s.data.map pyLowerChar⟩

/-- The characters stripped by `str.strip("\"'")` in the source
(double and single quote). -/
def isQuoteChar (c : Char) : Bool := c.toNat = 34 || c.toNat = 39

/-- Python `s.strip("\"'")` on a character list. -/
def pyStripQuotesL (l : List Char) : List Char :=
  ((l.dropWhile isQuoteChar).reverse.dropWhile isQuoteChar).reverse

/-- Python `s.strip("\"'")`. -/
def pyStripQuotes (s : String) : String := ⟨pyStripQuotesL s.data⟩

/-- Python `s.startswith(p)`. -/
def strStartsWith (s p : String) : Bool := p.data.isPrefixOf s.data

/-- Python `s.endswith(p)`. -/
def strEndsWith (s p : String) : Bool := p.data.isSuffixOf s.data

/-- Python `s[n:]` (drop the first `n` characters). -/
def strDrop (s : String) (n : Nat) : String := ⟨s.data.drop n⟩

/-- Python `sep.join(parts)` on character lists. -/
def pyJoinL (sep : List Char) : List (List Char) → List Char
  | [] => []
  | [x] => x
  | x :: y :: rest => x ++ sep ++ pyJoinL sep (y :: rest)

/-- Python `sep.join(parts)`. -/
def pyJoin (sep : String) (parts : List String) : String :=
  ⟨pyJoinL sep.data (parts.map (·.data))⟩

/-- The line-boundary characters of Python `str.splitlines`
(`\n`, `\r`, `\v`, `\f`, `\x1c`, `\x1d`, `\x1e`, `\x85`, ` `, ` `;
`\r\n` counts as a single boundary). -/
def isLineBreak (c : Char) : Bool :=
  c.toNat = 10 || c.toNat = 13 || c.toNat = 11 || c.toNat = 12 || c.toNat = 28 ||
    c.toNat = 29 || c.toNat = 30 || c.toNat = 133 || c.toNat = 8232 || c.toNat = 8233

/-- Python `str.splitlines(keepends=keep)` over a character list; `cur` is the
(reversed) portion of the current line already consumed. -/
def splitLinesAux (keep : Bool) (cur : List Char) : List Char → List (List Char)
  | [] => if cur.isEmpty then [] else [cur.reverse]
  | '\r' :: '\n' :: rest =>
      (if keep then cur.reverse ++ ['\r', '\n'] else cur.reverse) :: splitLinesAux keep [] rest
  | c :: rest =>
      if isLineBreak c then
        (if keep then cur.reverse ++ [c] else cur.reverse) :: splitLinesAux keep [] rest
      else splitLinesAux keep (c :: cur) rest

/-- Python `s.splitlines(keepends=True)`. -/
def pySplitlinesKeep (s : String) : List String :=
  (splitLinesAux true [] s.data).map (fun l => (⟨l⟩ : String))

/-- Python `s.splitlines()`. -/
def pySplitlines (s : String) : List String :=
  (splitLinesAux false [] s.data).map (fun l => (⟨l⟩ : String))

/-- Python `s.split()` (split on whitespace runs, no empty pieces); `cur` is the
(reversed) portion of the current word already consumed. -/
def pyWordsAux (cur : List Char) : List Char → List (List Char)
  | [] => if cur.isEmpty then [] else [cur.reverse]
  | c :: rest =>
      if pyIsSpace c then
        if cur.isEmpty then pyWordsAux [] rest else cur.reverse :: pyWordsAux [] rest
      else pyWordsAux (c :: cur) rest

/-- Python `s.split()`. -/
def pyWords (s : String) : List String :=
  (pyWordsAux [] s.data).map (fun l => (⟨l⟩ : String))

/-- Python `s.split(sep)` for a one-character separator, keeping empty pieces. -/
def pySplitChar (sep : Char) : List Char → List (List Char)
  | [] => [[]]
  | c :: rest =>
      if c = sep then [] :: pySplitChar sep rest
      else
        match pySplitChar sep rest with
        | [] => [[c]]
        | w :: ws => (c :: w) :: ws

/-- Python `line.split(":", 1)` when a colon is present: the text before the
first colon and the text after it; `none` when the line has no colon. -/
def splitFirstColon : List Char → Option (List Char × List Char)
  | [] => none
  | c :: rest =>
      if c = ':' then some ([], rest)
      else
        match splitFirstColon rest with
        | none => none
        | some (a, b) => some (c :: a, b)

/-! ## frontmatter.py -/

/-- `frontmatter.ParsedFrontmatter`. -/
structure ParsedFrontmatter where
  title : String
  description : String
  tags : List String
deriving DecidableEq

/-- The loop body of `normalize_tags`: `seen` is the set of already-accepted
tags (modelled as a list queried by membership). -/
def normalizeTagsGo (seen : List String) : List String → List String
  | [] => []
  | rawTag :: rest =>
      let tag := pyLower (pyStrip rawTag)
      if tag = "" then normalizeTagsGo seen rest
      else if seen.contains tag then normalizeTagsGo seen rest
      else tag :: normalizeTagsGo (tag :: seen) rest

/-- `frontmatter.normalize_tags`. -/
def normalize_tags (tags : List String) : List String := normalizeTagsGo [] tags

/-- `frontmatter.make_description_snapshot`. -/
def make_description_snapshot (description : String) (maxWords : Nat := 30) : String :=
  let words := pyWords (pyStrip description)
  if words.length ≤ maxWords then pyJoin " " words
  else pyJoin " " (words.take maxWords)

/-- `frontmatter._parse_key_value_line`. -/
def _parse_key_value_line (line : String) : Option (String × String) :=
  match splitFirstColon line.data with
  | none => none
  | some (k, v) =>
      let key := pyStrip ⟨k⟩
      let value := pyStrip ⟨v⟩
      if key = "" then none else some (key, value)

/-- The list comprehension
`[p.strip().strip("\"'") for p in chunk.split(",") if p.strip()]`
used by `_parse_tags_value` in both of its branches. -/
def splitCommaItems (l : List Char) : List String :=
  (pySplitChar ',' l).filterMap fun p =>
    let ps := pyStripL p
    if ps.isEmpty then none else some (pyStripQuotes ⟨ps⟩)

/-- `frontmatter._parse_tags_value`. -/
def _parse_tags_value (value : String) : List String :=
  let v := pyStrip value
  if v = "" then []
  else if strStartsWith v "[" && strEndsWith v "]" then
    let inner := pyStripL ((v.data.drop 1).dropLast)
    if inner.isEmpty then [] else splitCommaItems inner
  else splitCommaItems v.data

/-- The delimiter-search loop of `parse_skill_markdown` and
`_update_tags_in_skill_md`: the index, among the lines after the first, of
the first line that strips to `---` (the loop breaks at the first hit). -/
def findDelim : List String → Option Nat
  | [] => none
  | l :: rest =>
      if pyStrip l = "---" then some 0
      else (findDelim rest).map (· + 1)

/-- The mutable state of the header-body loop in `parse_skill_markdown`. -/
structure FMState where
  title : String
  description : String
  tags : List String
  inTagsList : Bool
deriving DecidableEq

/-- One iteration of the header-body loop in `parse_skill_markdown`. -/
def fmStep (st : FMState) (rawLine : String) : FMState :=
  let line := pyStrip rawLine
  if line = "" then st
  else if st.inTagsList ∧ strStartsWith line "-" then
    { st with tags := st.tags ++ [pyStripQuotes (pyStrip (strDrop line 1))] }
  else
    let st := { st with inTagsList := false }
    match _parse_key_value_line line with
    | none => st
    | some (key, value) =>
        let keyLower := pyLower key
        if keyLower = "title" then
          { st with title := pyStripQuotes (pyStrip value) }
        else if keyLower = "name" ∧ st.title = "" then
          { st with title := pyStripQuotes (pyStrip value) }
        else if keyLower = "description" then
          { st with description := pyStripQuotes (pyStrip value) }
        else if keyLower = "tags" then
          if value = "" ∨ value = "[]" then { st with inTagsList := true }
          else { st with tags := st.tags ++ _parse_tags_value value }
        else st

/-- `frontmatter.parse_skill_markdown`. -/
def parse_skill_markdown (markdownText : String) : Except String ParsedFrontmatter :=
  let text : List Char := markdownText.data.dropWhile (· = '﻿')
  match pySplitlines ⟨text⟩ with
  | [] => .error "missing_frontmatter"
  | l0 :: rest =>
      if pyStrip l0 ≠ "---" then .error "missing_frontmatter"
      else
        match findDelim rest with
        | none => .error "unterminated_frontmatter"
        | some j =>
            let frontmatterLines := rest.take j
            let st := frontmatterLines.foldl fmStep ⟨"", "", [], false⟩
            if st.title = "" then .error "missing_title"
            else if st.description = "" then .error "missing_description"
            else .ok ⟨st.title, st.description, normalize_tags st.tags⟩

example : pyStrip "  a b \n" = "a b" := by decide
example : pyLower "AbC" = "abc" := by decide
example : pySplitlines "ab\r\ncd\n" = ["ab", "cd"] := by decide
example : pySplitlinesKeep "ab\ncd" = ["ab\n", "cd"] := by decide
example : pyWords " a  bb c " = ["a", "bb", "c"] := by decide
example : _parse_tags_value "[a, b]" = ["a", "b"] := by decide
example : _parse_tags_value "a, \"b\"" = ["a", "b"] := by decide
example : normalize_tags [" A", "a", "", "b"] = ["a", "b"] := by decide
example : make_description_snapshot "  one two  three " = "one two three" := by decide
example :
    parse_skill_markdown "---\ntitle: T\ndescription: D\ntags: [a, b]\n---\nbody" =
      .ok ⟨"T", "D", ["a", "b"]⟩ := rfl
example :
    parse_skill_markdown "---\ntitle: T\ndescription: D\ntags:\n- a\n\n- b\n---\n" =
      .ok ⟨"T", "D", ["a", "b"]⟩ := rfl
example : parse_skill_markdown "no delim" = .error "missing_frontmatter" := rfl
example : parse_skill_markdown "---\ntitle: T\n" = .error "unterminated_frontmatter" := rfl

/-! ## models.py

Filesystem paths are modelled as the strings `str(path)` produces: for
`pathlib` path objects the `str` image is canonical, so `Path`/`str`
conversion is the identity in this model. -/

/-- `models.SkillFrontmatter`. -/
structure SkillFrontmatter where
  title : String
  description : String
  tags : List String
deriving DecidableEq

/-- `models.SkillRecord`. -/
structure SkillRecord where
  skill_id : String
  source_root : String
  skill_path : String
  category_path : List String
  frontmatter : SkillFrontmatter
  description_snapshot : String
  tag_issues : List String
deriving DecidableEq

/-- `models.TreeNode`.  The Python `dict[str, TreeNode]` of children is an
insertion-ordered mapping with unique keys; it is modelled as an ordered
association list. -/
inductive TreeNode where
  | node (name : String) (path : List String) (children : List (String × TreeNode))
      (skills : List SkillRecord)

/-- The `children` field of a `TreeNode`. -/
def TreeNode.children : TreeNode → List (String × TreeNode)
  | .node _ _ c _ => c

/-- The `skills` field of a `TreeNode`. -/
def TreeNode.skills : TreeNode → List SkillRecord
  | .node _ _ _ s => s

/-- `models.ScanResult`. -/
structure ScanResult where
  skills : List SkillRecord
  tree : TreeNode

/-- `tags_registry.TagsRegistry`.  The Python `frozenset` is consulted only
for emptiness and membership; it is modelled as a list queried by
membership. -/
structure TagsRegistry where
  allowed_tags : List String

/-- Python `children.get(part)` on the modelled child mapping. -/
def lookupChild : List (String × TreeNode) → String → Option TreeNode
  | [], _ => none
  | (k, v) :: rest, key => if k = key then some v else lookupChild rest key

/-- Python `children[part] = child` when `part` is already a key: the value is
replaced in place, keeping the mapping's order. -/
def replaceChild : List (String × TreeNode) → String → TreeNode → List (String × TreeNode)
  | [], _, _ => []
  | (k, v) :: rest, key, nv =>
      if k = key then (k, nv) :: rest else (k, v) :: replaceChild rest key nv

/-- `scanner._insert_into_tree` (the same walk is inlined in
`index_store.build_tree`): walk `parts`, creating missing children, and append
the record to the terminal node's skill list. -/
def _insert_into_tree (root : TreeNode) : List String → SkillRecord → TreeNode
  | [], record =>
      match root with
      | .node n p c s => .node n p c (s ++ [record])
  | part :: rest, record =>
      match root with
      | .node n p c s =>
          match lookupChild c part with
          | some child =>
              .node n p (replaceChild c part (_insert_into_tree child rest record)) s
          | none =>
              .node n p (c ++ [(part, _insert_into_tree (.node part (p ++ [part]) [] []) rest record)]) s

/-! ## scanner.py

The filesystem walked by `scan_skills` is modelled explicitly: a root is a
directory-existence flag plus the `SKILL.md` files `rglob` enumerates under
it, each file carrying its category segments (the directory path between the
root and the file) and either its text or `none` for a read failure. -/

/-- One `SKILL.md` file found under a root: `segments` are the directory
names between the root and the file; `content` is the text `read_text`
returns, or `none` when the read raises. -/
structure FileEntry where
  segments : List String
  content : Option String

/-- One configured root directory: `name` is `root.name`, `rootPath` is
`str(root)`, `isDir` is `root.exists() and root.is_dir()`, and `files` lists
the `SKILL.md` files `rglob` yields, in enumeration order. -/
structure RootDir where
  name : String
  rootPath : String
  isDir : Bool
  files : List FileEntry

/-- `scanner._make_skill_id`: `{root.name}:{relative path, slash-joined}`. -/
def _make_skill_id (root : RootDir) (f : FileEntry) : String :=
  root.name ++ ":" ++ pyJoin "/" (f.segments ++ ["SKILL.md"])

/-- `scanner._make_category_path`: the relative parent directory's segments. -/
def _make_category_path (f : FileEntry) : List String :=
  f.segments.filter (fun p => p ≠ "")

/-- `str(skill_md_path)` for a modelled file. -/
def skillPathString (root : RootDir) (f : FileEntry) : String :=
  root.rootPath ++ "/" ++ pyJoin "/" (f.segments ++ ["SKILL.md"])

/-- `scanner._validate_tags`. -/
def _validate_tags (tags : List String) (registry : TagsRegistry) : List String :=
  if tags = [] then ["missing_tags"]
  else if registry.allowed_tags ≠ [] then
    let invalid_tags := tags.filter (fun t => ¬ registry.allowed_tags.contains t)
    if invalid_tags ≠ [] then ["invalid_tags:" ++ pyJoin "," invalid_tags] else []
  else []

/-- The body of the per-file loop of `scan_skills`: read the file and parse
it, yielding the skill record, or `none` when reading or parsing fails (the
`except Exception: continue` branch). -/
def processFile (registry : TagsRegistry) (root : RootDir) (f : FileEntry) :
    Option SkillRecord :=
  match f.content with
  | none => none
  | some text =>
      match parse_skill_markdown text with
      | .error _ => none
      | .ok extracted =>
          some
            { skill_id := _make_skill_id root f
              source_root := root.rootPath
              skill_path := skillPathString root f
              category_path := _make_category_path f
              frontmatter :=
                { title := extracted.title
                  description := extracted.description
                  tags := extracted.tags }
              description_snapshot := make_description_snapshot extracted.description
              tag_issues := _validate_tags extracted.tags registry }

/-- The accumulation step of `scan_skills` for one file: a skipped file
leaves the accumulator unchanged; a parsed one is appended to the record
list and inserted into the tree. -/
def scanFileStep (registry : TagsRegistry) (root : RootDir)
    (acc : List SkillRecord × TreeNode) (f : FileEntry) :
    List SkillRecord × TreeNode :=
  match processFile registry root f with
  | none => acc
  | some record => (acc.1 ++ [record], _insert_into_tree acc.2 record.category_path record)

/-- The accumulation step of `scan_skills` for one root: roots that do not
exist or are not directories are skipped. -/
def scanRootStep (registry : TagsRegistry) (acc : List SkillRecord × TreeNode)
    (root : RootDir) : List SkillRecord × TreeNode :=
  if root.isDir then root.files.foldl (scanFileStep registry root) acc else acc

/-- `scanner.scan_skills`. -/
def scan_skills (roots : List RootDir) (tags_registry : Option TagsRegistry) : ScanResult :=
  let registry := tags_registry.getD ⟨[]⟩
  let init : List SkillRecord × TreeNode := ([], .node "/" [] [] [])
  let out := roots.foldl (scanRootStep registry) init
  ⟨out.1, out.2⟩

/-! ## index_store.py

The cache file is modelled at the level of the JSON document it holds:
`json.dumps`/`json.loads` of the host library are assumed faithful, so
`save_index` produces the payload value directly and `load_index` consumes
one.  A `CacheFile` is what `load_index` can observe at its path: a missing
path, a non-regular file, an unreadable or unparseable file, or a parsed
JSON document.  JSON numbers are modelled as integers (the cache schema
writes only integers). -/

/-- A JSON value, as decoded by `json.loads`. -/
inductive JValue where
  | jnull
  | jbool (b : Bool)
  | jint (n : Int)
  | jstr (s : String)
  | jarr (items : List JValue)
  | jobj (fields : List (String × JValue))

/-- Python `repr` of a JSON-decoded value (quote escaping inside strings is
not modelled; no claim exercises it). -/
def pyRepr : JValue → String
  | .jnull => "None"
  | .jbool true => "True"
  | .jbool false => "False"
  | .jint n => toString n
  | .jstr s => "'" ++ s ++ "'"
  | .jarr items =>
      "[" ++ pyJoin ", " (items.attach.map fun x => pyRepr x.1) ++ "]"
  | .jobj fields =>
      "\x7b" ++ pyJoin ", "
        (fields.attach.map fun x => "'" ++ x.1.1 ++ "': " ++ pyRepr x.1.2) ++ "\x7d"
decreasing_by
  · have := List.sizeOf_lt_of_mem x.2
    simp only [JValue.jarr.sizeOf_spec]
    omega
  · have h1 := List.sizeOf_lt_of_mem x.2
    have h2 : sizeOf x.1.2 < sizeOf x.1 := by
      obtain ⟨a, b⟩ := x.1
      simp only [Prod.mk.sizeOf_spec]
      omega
    simp only [JValue.jobj.sizeOf_spec]
    omega

/-- Python `str` of a JSON-decoded value: a string is itself, anything else
prints as its `repr`. -/
def pyStr : JValue → String
  | .jstr s => s
  | v => pyRepr v

/-- Lookup in a JSON-decoded object (`dict`): with duplicate keys in the
source document the later binding wins, as in `json.loads`. -/
def lookupLast : List (String × JValue) → String → Option JValue
  | [], _ => none
  | (k, v) :: rest, key =>
      match lookupLast rest key with
      | some r => some r
      | none => if k = key then some v else none

/-- Python `data.get(key, dflt)`. -/
def pyGet (fields : List (String × JValue)) (key : String) (dflt : JValue) : JValue :=
  match lookupLast fields key with
  | some v => v
  | none => dflt

/-- Python iteration over a JSON-decoded value, as the generator expressions
in `_dict_to_skill` perform it: lists yield their items, strings their
characters, dicts their keys; anything else raises `TypeError`. -/
def pyIter : JValue → Except String (List JValue)
  | .jarr items => .ok items
  | .jstr s => .ok (s.data.map fun c => .jstr ⟨[c]⟩)
  | .jobj fields => .ok (fields.map fun kv => .jstr kv.1)
  | _ => .error "TypeError"

/-- `index_store._skill_to_dict`: the flattened record dict. -/
def _skill_to_dict (skill : SkillRecord) : List (String × JValue) :=
  [("skill_id", .jstr skill.skill_id),
   ("source_root", .jstr skill.source_root),
   ("skill_path", .jstr skill.skill_path),
   ("category_path", .jarr (skill.category_path.map .jstr)),
   ("title", .jstr skill.frontmatter.title),
   ("description", .jstr skill.frontmatter.description),
   ("tags", .jarr (skill.frontmatter.tags.map .jstr)),
   ("description_snapshot", .jstr skill.description_snapshot),
   ("tag_issues", .jarr (skill.tag_issues.map .jstr))]

/-- `index_store._dict_to_skill`.  The result is in `Except` because the
generator expressions raise `TypeError` when a field that should be a list
holds a non-iterable value; `load_index` does not catch that. -/
def _dict_to_skill (data : List (String × JValue)) : Except String SkillRecord := do
  let tagsItems ← pyIter (pyGet data "tags" (.jarr []))
  let catItems ← pyIter (pyGet data "category_path" (.jarr []))
  let issueItems ← pyIter (pyGet data "tag_issues" (.jarr []))
  .ok
    { skill_id := pyStr (pyGet data "skill_id" (.jstr ""))
      source_root := pyStr (pyGet data "source_root" (.jstr ""))
      skill_path := pyStr (pyGet data "skill_path" (.jstr ""))
      category_path := (catItems.map pyStr).filter (fun s => pyStrip s ≠ "")
      frontmatter :=
        { title := pyStr (pyGet data "title" (.jstr ""))
          description := pyStr (pyGet data "description" (.jstr ""))
          tags := (tagsItems.map pyStr).filter (fun s => pyStrip s ≠ "") }
      description_snapshot := pyStr (pyGet data "description_snapshot" (.jstr ""))
      tag_issues := (issueItems.map pyStr).filter (fun s => pyStrip s ≠ "") }

/-- `index_store.build_tree`. -/
def build_tree (skills : List SkillRecord) : TreeNode :=
  skills.foldl (fun root record => _insert_into_tree root record.category_path record)
    (.node "/" [] [] [])

/-- What `load_index` can observe at the cache path. -/
inductive CacheFile where
  | missing
  | notFile
  | unreadable
  | parsed (v : JValue)

/-- `index_store.save_index`: the versioned payload written to the cache
path (whole-file replacement). -/
def save_index (scan : ScanResult) : CacheFile :=
  .parsed (.jobj
    [("version", .jint 1),
     ("skills", .jarr (scan.skills.map fun s => .jobj (_skill_to_dict s)))])

/-- Python `data.get("version") != 1` is false exactly for values comparing
equal to the integer `1`: the integer `1` itself and the boolean `True`
(Python's `bool` is a subtype of `int` with `True == 1`). -/
def pyEqOne : JValue → Bool
  | .jint n => n = 1
  | .jbool b => b
  | _ => false

/-- The record-collection loop of `load_index`: non-dict items are skipped;
a `TypeError` out of `_dict_to_skill` propagates. -/
def collectSkills : List JValue → Except String (List SkillRecord)
  | [] => .ok []
  | .jobj f :: rest => do
      let s ← _dict_to_skill f
      let r ← collectSkills rest
      .ok (s :: r)
  | _ :: rest => collectSkills rest

/-- `index_store.load_index`.  `.ok none` is Python's `return None` (a cache
miss); `.error` is an uncaught exception escaping `load_index`. -/
def load_index : CacheFile → Except String (Option ScanResult)
  | .missing => .ok none
  | .notFile => .ok none
  | .unreadable => .ok none
  | .parsed data =>
      match data with
      | .jobj fields =>
          match lookupLast fields "version" with
          | none => .ok none
          | some v =>
              if ¬ pyEqOne v then .ok none
              else
                match pyGet fields "skills" (.jarr []) with
                | .jarr items => do
                    let skills ← collectSkills items
                    .ok (some ⟨skills, build_tree skills⟩)
                | _ => .ok none
      | _ => .ok none

/-! ## server.py: the tag rewriter -/

/-- `server._format_tags_inline`. -/
def _format_tags_inline (tags : List String) : String := "[" ++ pyJoin ", " tags ++ "]"

/-- The per-line test of the rewrite loop:
`raw.lstrip().lower().startswith("tags:")`. -/
def isTagsLine (raw : String) : Bool := strStartsWith (pyLower (pyLStrip raw)) "tags:"

/-- The rewrite loop of `_update_tags_in_skill_md`: every matching line is
replaced by the new tags line; when none matched, the new line is appended
to the header body. -/
def rewriteFront (front : List String) (newTagsLine : String) : List String :=
  let out := front.foldl
    (fun (acc : List String × Bool) raw =>
      if isTagsLine raw then (acc.1 ++ [newTagsLine], true) else (acc.1 ++ [raw], acc.2))
    ([], false)
  if out.2 then out.1 else out.1 ++ [newTagsLine]

/-- `server._update_tags_in_skill_md` up to its final `write_text`: the
returned string is the content written on success; an `.error` is raised
before any write. -/
def _update_tags_in_skill_md (text : String) (new_tags : List String) : Except String String :=
  match pySplitlinesKeep text with
  | [] => .error "empty_file"
  | l0 :: rest =>
      if pyStrip l0 ≠ "---" then .error "missing_frontmatter"
      else
        match findDelim rest with
        | none => .error "unterminated_frontmatter"
        | some j =>
            let front := rest.take j
            let close := (rest.drop j).headD ""
            let body := rest.drop (j + 1)
            let newTagsLine := "tags: " ++ _format_tags_inline new_tags ++ "\n"
            .ok (l0 ++ pyJoin "" (rewriteFront front newTagsLine) ++ close ++ pyJoin "" body)

/-- The target file's content after a rewrite attempt: the write happens
only on success; on a raised error the file is left unchanged. -/
def applyUpdate (text : String) (new_tags : List String) : String :=
  match _update_tags_in_skill_md text new_tags with
  | .ok newText => newText
  | .error _ => text

example :
    _update_tags_in_skill_md "---\ntitle: X\ndescription: Y\ntags: [a]\n---\nbody" ["b", "c"] =
      .ok "---\ntitle: X\ndescription: Y\ntags: [b, c]\n---\nbody" := rfl
example :
    _update_tags_in_skill_md "---\ntitle: X\n---\nbody" ["b"] =
      .ok "---\ntitle: X\ntags: [b]\n---\nbody" := rfl
example : _update_tags_in_skill_md "body only" ["b"] = .error "missing_frontmatter" := rfl
example : _update_tags_in_skill_md "" ["b"] = .error "empty_file" := rfl
example : _update_tags_in_skill_md "---\ntitle: X\n" ["b"] = .error "unterminated_frontmatter" := rfl

/-! ## Shared lemmas -/

theorem validate_tags_length_le (tags : List String) (registry : TagsRegistry) :
    (_validate_tags tags registry).length ≤ 1 := by
  unfold _validate_tags
  split_ifs
  · simp
  · show (if _ ≠ ([] : List String) then _ else []).length ≤ 1
    split <;> simp
  · simp

theorem invalid_issue_ne_missing (j : String) : "invalid_tags:" ++ j ≠ "missing_tags" := by
  intro h
  have h13 : ("invalid_tags:" : String).data.length = 13 := rfl
  have h12 : ("missing_tags" : String).data.length = 12 := rfl
  have hlen : ("invalid_tags:" ++ j).data.length = ("missing_tags" : String).data.length := by
    rw [h]
  rw [String.data_append, List.length_append, h13, h12] at hlen
  omega

theorem scanFileFold_skills (registry : TagsRegistry) (root : RootDir)
    (files : List FileEntry) (acc : List SkillRecord × TreeNode) :
    (files.foldl (scanFileStep registry root) acc).1 =
      acc.1 ++ files.filterMap (processFile registry root) := by
  induction files generalizing acc with
  | nil => simp
  | cons f rest ih =>
      simp only [List.foldl_cons, List.filterMap_cons]
      cases hf : processFile registry root f with
      | none => simp [scanFileStep, hf, ih]
      | some r => simp [scanFileStep, hf, ih]

theorem scanRootFold_skills (registry : TagsRegistry) (roots : List RootDir)
    (acc : List SkillRecord × TreeNode) :
    (roots.foldl (scanRootStep registry) acc).1 =
      acc.1 ++ (roots.map (fun root =>
        if root.isDir then root.files.filterMap (processFile registry root) else [])).flatten := by
  induction roots generalizing acc with
  | nil => simp
  | cons root rest ih =>
      simp only [List.foldl_cons, List.map_cons, List.flatten_cons]
      by_cases hd : root.isDir
      · simp only [scanRootStep, hd, if_true, ih, scanFileFold_skills, List.append_assoc]
      · simp [scanRootStep, hd, ih]

theorem scan_skills_skills (roots : List RootDir) (reg : Option TagsRegistry) :
    (scan_skills roots reg).skills =
      (roots.map (fun root =>
        if root.isDir then root.files.filterMap (processFile (reg.getD ⟨[]⟩) root)
        else [])).flatten := by
  simp only [scan_skills]
  rw [scanRootFold_skills]
  rfl

theorem processFile_tag_issues (registry : TagsRegistry) (root : RootDir) (f : FileEntry)
    (r : SkillRecord) (h : processFile registry root f = some r) :
    ∃ tags, r.tag_issues = _validate_tags tags registry := by
  unfold processFile at h
  split at h
  · exact absurd h (by simp)
  · split at h
    · exact absurd h (by simp)
    · rename_i extracted _
      refine ⟨extracted.tags, ?_⟩
      have := Option.some.inj h
      rw [← this]

/-- `True` exactly when the scanner's `try` block fails on this file: either
the read raises or `parse_skill_markdown` raises. -/
def fileScanFails (f : FileEntry) : Bool :=
  match f.content with
  | none => true
  | some text =>
      match parse_skill_markdown text with
      | .error _ => true
      | .ok _ => false

theorem processFile_none_of_fails (registry : TagsRegistry) (root : RootDir)
    (f : FileEntry) (h : fileScanFails f = true) :
    processFile registry root f = none := by
  unfold fileScanFails at h
  unfold processFile
  split at h
  · rfl
  · split at h
    · rfl
    · exact absurd h (by simp)

/-! ## Claim C4: taxonomy validation -/

/-- C4: for every tag list and taxonomy: an empty tag list yields exactly
`["missing_tags"]` with no further checks; otherwise, with a non-empty
allow-list and some tags outside it, exactly one issue `"invalid_tags:"`
followed by the offending tags joined by commas in their original order;
otherwise (all tags allowed, or empty allow-list) no issues. -/
theorem c4_validate_tags (tags : List String) (registry : TagsRegistry) :
    (tags = [] → _validate_tags tags registry = ["missing_tags"]) ∧
    (tags ≠ [] → registry.allowed_tags ≠ [] →
      tags.filter (fun t => ¬ registry.allowed_tags.contains t) ≠ [] →
      _validate_tags tags registry =
        ["invalid_tags:" ++
          pyJoin "," (tags.filter (fun t => ¬ registry.allowed_tags.contains t))]) ∧
    (tags ≠ [] →
      (registry.allowed_tags = [] ∨
        tags.filter (fun t => ¬ registry.allowed_tags.contains t) = []) →
      _validate_tags tags registry = []) := by
  refine ⟨?_, ?_, ?_⟩
  · intro h
    simp [_validate_tags, h]
  · intro h1 h2 h3
    simp only [_validate_tags, if_neg h1, if_pos h2]
    exact if_pos h3
  · intro h1 h2
    rcases h2 with h2 | h2
    · simp [_validate_tags, h1, h2]
    · simp only [_validate_tags, if_neg h1]
      split
      · show (if _ ≠ ([] : List String) then _ else []) = []
        rw [if_neg]
        intro hc
        exact hc h2
      · rfl

theorem c4_validate_tags_witness :
    _validate_tags ["python", "web"] ⟨["python"]⟩ = ["invalid_tags:web"] ∧
    _validate_tags [] ⟨["python"]⟩ = ["missing_tags"] := by
  constructor
  · rw [(c4_validate_tags ["python", "web"] ⟨["python"]⟩).2.1 (by decide) (by decide) (by decide)]
    decide
  · exact (c4_validate_tags [] ⟨["python"]⟩).1 rfl

theorem validate_tags_cases (tags : List String) (registry : TagsRegistry) :
    _validate_tags tags registry = [] ∨
    _validate_tags tags registry = ["missing_tags"] ∨
    ∃ j, _validate_tags tags registry = ["invalid_tags:" ++ j] := by
  unfold _validate_tags
  split_ifs
  · exact Or.inr (Or.inl rfl)
  · by_cases hinv : tags.filter (fun t => ¬ registry.allowed_tags.contains t) ≠ []
    · exact Or.inr (Or.inr ⟨_, if_pos hinv⟩)
    · exact Or.inl (if_neg hinv)
  · exact Or.inl rfl

/-! ## Claim C10: at most one tag issue -/

/-- C10: the tag-issues sequence computed at scan time holds at most one
issue code; `missing_tags` and an `invalid_tags:` code never appear
together; and every record produced by a scan carries at most one issue. -/
theorem c10_at_most_one_issue :
    (∀ tags registry, (_validate_tags tags registry).length ≤ 1 ∧
      ¬ ("missing_tags" ∈ _validate_tags tags registry ∧
         ∃ s ∈ _validate_tags tags registry, strStartsWith s "invalid_tags:" = true)) ∧
    (∀ roots reg r, r ∈ (scan_skills roots reg).skills → r.tag_issues.length ≤ 1) := by
  constructor
  · intro tags registry
    refine ⟨validate_tags_length_le tags registry, ?_⟩
    rintro ⟨hmem, s, hs, hstart⟩
    rcases validate_tags_cases tags registry with hv | hv | ⟨j, hv⟩
    · rw [hv] at hmem
      exact absurd hmem (List.not_mem_nil _)
    · rw [hv] at hs hmem
      simp only [List.mem_singleton] at hs
      rw [hs] at hstart
      exact absurd hstart (by decide)
    · rw [hv] at hmem
      simp only [List.mem_singleton] at hmem
      exact invalid_issue_ne_missing j hmem.symm
  · intro roots reg r hr
    rw [scan_skills_skills] at hr
    simp only [List.mem_flatten, List.mem_map] at hr
    obtain ⟨l, ⟨root, _, hl⟩, hrl⟩ := hr
    rw [← hl] at hrl
    by_cases hd : root.isDir
    · rw [if_pos hd] at hrl
      obtain ⟨f, _, hf⟩ := List.mem_filterMap.mp hrl
      obtain ⟨tags, htags⟩ := processFile_tag_issues _ root f r hf
      rw [htags]
      exact validate_tags_length_le _ _
    · rw [if_neg hd] at hrl
      exact absurd hrl (List.not_mem_nil r)

theorem c10_at_most_one_issue_witness :
    (_validate_tags ["python", "web"] ⟨["python"]⟩).length ≤ 1 ∧
    (_validate_tags [] ⟨[]⟩).length ≤ 1 := by
  exact ⟨(c10_at_most_one_issue.1 ["python", "web"] ⟨["python"]⟩).1,
         (c10_at_most_one_issue.1 [] ⟨[]⟩).1⟩

/-! ## Claim C3: per-document failures are skipped -/

/-- C3: a document on which reading or parsing fails contributes no record
and surfaces no error: the scan of a root list is unchanged when such a
document is removed from a root's enumeration, and scanning continues with
the remaining documents. -/
theorem c3_scan_skips_failures (rs1 rs2 : List RootDir) (name rootPath : String)
    (isDir : Bool) (xs ys : List FileEntry) (bad : FileEntry) (reg : Option TagsRegistry)
    (h : fileScanFails bad = true) :
    scan_skills (rs1 ++ ⟨name, rootPath, isDir, xs ++ bad :: ys⟩ :: rs2) reg =
      scan_skills (rs1 ++ ⟨name, rootPath, isDir, xs ++ ys⟩ :: rs2) reg := by
  have key : ∀ registry acc,
      scanRootStep registry acc ⟨name, rootPath, isDir, xs ++ bad :: ys⟩ =
        scanRootStep registry acc ⟨name, rootPath, isDir, xs ++ ys⟩ := by
    intro registry acc
    unfold scanRootStep
    cases isDir
    · rfl
    · simp only [if_pos]
      rw [List.foldl_append, List.foldl_append, List.foldl_cons]
      have : scanFileStep registry ⟨name, rootPath, true, xs ++ bad :: ys⟩
          (List.foldl (scanFileStep registry ⟨name, rootPath, true, xs ++ bad :: ys⟩) acc xs)
          bad = List.foldl (scanFileStep registry ⟨name, rootPath, true, xs ++ bad :: ys⟩) acc xs := by
        unfold scanFileStep
        rw [processFile_none_of_fails _ _ _ h]
      rw [this]
      have hfiles : ∀ (files1 files2 : List FileEntry) (acc' : List SkillRecord × TreeNode),
          List.foldl (scanFileStep registry ⟨name, rootPath, true, files1⟩) acc' ys =
            List.foldl (scanFileStep registry ⟨name, rootPath, true, files2⟩) acc' ys := by
        intro files1 files2 acc'
        rfl
      rw [hfiles (xs ++ bad :: ys) (xs ++ ys)]
      have hxs : ∀ (files1 files2 : List FileEntry) (acc' : List SkillRecord × TreeNode),
          List.foldl (scanFileStep registry ⟨name, rootPath, true, files1⟩) acc' xs =
            List.foldl (scanFileStep registry ⟨name, rootPath, true, files2⟩) acc' xs := by
        intro files1 files2 acc'
        rfl
      rw [hxs (xs ++ bad :: ys) (xs ++ ys)]
  simp only [scan_skills]
  rw [List.foldl_append, List.foldl_append, List.foldl_cons, List.foldl_cons, key]

/-- A document whose first line is not the header delimiter: parsing fails. -/
def badFile : FileEntry := ⟨[], some "not a header\n"⟩

/-- A well-formed skill document. -/
def goodFile : FileEntry := ⟨["cat"], some "---\ntitle: T\ndescription: D\ntags: [a]\n---\n"⟩

theorem c3_scan_skips_failures_witness :
    scan_skills [⟨"r", "/r", true, [badFile, goodFile]⟩] none =
      scan_skills [⟨"r", "/r", true, [goodFile]⟩] none ∧
    (scan_skills [⟨"r", "/r", true, [goodFile]⟩] none).skills.map SkillRecord.skill_id =
      ["r:cat/SKILL.md"] := by
  constructor
  · exact c3_scan_skips_failures [] [] "r" "/r" true [] [goodFile] badFile none (by decide)
  · decide

/-! ## Claim C9: the description snapshot -/

theorem pyWordsAux_allSpace (s : List Char) (hs : ∀ c ∈ s, pyIsSpace c = true)
    (cur : List Char) :
    pyWordsAux cur s = if cur.isEmpty then [] else [cur.reverse] := by
  induction s generalizing cur with
  | nil => rfl
  | cons c rest ih =>
      have hc : pyIsSpace c = true := hs c (by simp)
      have hrest : ∀ d ∈ rest, pyIsSpace d = true := fun d hd => hs d (by simp [hd])
      by_cases hcur : cur.isEmpty
      · simp [pyWordsAux, hc, hcur, ih hrest]
      · simp [pyWordsAux, hc, hcur, ih hrest]

theorem pyWordsAux_append_spaces (s : List Char) (hs : ∀ c ∈ s, pyIsSpace c = true)
    (l cur : List Char) :
    pyWordsAux cur (l ++ s) = pyWordsAux cur l := by
  induction l generalizing cur with
  | nil =>
      rw [List.nil_append, pyWordsAux_allSpace s hs cur]
      rfl
  | cons c rest ih =>
      by_cases hc : pyIsSpace c = true
      · by_cases hcur : cur.isEmpty
        · simp [pyWordsAux, hc, hcur, ih]
        · simp [pyWordsAux, hc, hcur, ih]
      · simp [pyWordsAux, hc, ih]

theorem pyWordsAux_dropWhile_spaces (l : List Char) :
    pyWordsAux [] (l.dropWhile pyIsSpace) = pyWordsAux [] l := by
  induction l with
  | nil => rfl
  | cons c rest ih =>
      by_cases hc : pyIsSpace c = true
      · rw [List.dropWhile_cons, if_pos hc, ih]
        simp [pyWordsAux, hc]
      · rw [List.dropWhile_cons, if_neg hc]

theorem pyWordsAux_strip (d : List Char) :
    pyWordsAux [] (pyStripL d) = pyWordsAux [] d := by
  have key : ∀ a : List Char,
      pyWordsAux [] ((a.reverse.dropWhile pyIsSpace).reverse) = pyWordsAux [] a := by
    intro a
    have hs : ∀ c ∈ (a.reverse.takeWhile pyIsSpace).reverse, pyIsSpace c = true := by
      intro c hc
      rw [List.mem_reverse] at hc
      exact List.mem_takeWhile_imp hc
    have hdecomp : a =
        (a.reverse.dropWhile pyIsSpace).reverse ++ (a.reverse.takeWhile pyIsSpace).reverse := by
      calc a = a.reverse.reverse := (List.reverse_reverse a).symm
        _ = (a.reverse.takeWhile pyIsSpace ++ a.reverse.dropWhile pyIsSpace).reverse := by
            rw [List.takeWhile_append_dropWhile]
        _ = _ := by rw [List.reverse_append]
    calc pyWordsAux [] ((a.reverse.dropWhile pyIsSpace).reverse)
        = pyWordsAux []
            ((a.reverse.dropWhile pyIsSpace).reverse ++ (a.reverse.takeWhile pyIsSpace).reverse) :=
          (pyWordsAux_append_spaces _ hs _ _).symm
      _ = pyWordsAux [] a := by rw [← hdecomp]
  unfold pyStripL
  rw [key (d.dropWhile pyIsSpace), pyWordsAux_dropWhile_spaces]

/-- C9: the description snapshot renders the 30-word initial segment of the
description split on whitespace: it equals the space-join of a prefix of the
word list, of length at most 30. -/
theorem c9_description_snapshot (description : String) :
    make_description_snapshot description = pyJoin " " ((pyWords description).take 30) ∧
    (∃ rest, (pyWords description).take 30 ++ rest = pyWords description) ∧
    ((pyWords description).take 30).length ≤ 30 := by
  refine ⟨?_, ⟨(pyWords description).drop 30, List.take_append_drop 30 _⟩, ?_⟩
  · have hw : pyWords (pyStrip description) = pyWords description := by
      unfold pyWords
      exact congrArg _ (pyWordsAux_strip description.data)
    simp only [make_description_snapshot]
    rw [hw]
    by_cases hlen : (pyWords description).length ≤ 30
    · rw [if_pos hlen, List.take_of_length_le hlen]
    · rw [if_neg hlen]
  · exact le_trans (List.length_take_le 30 _) (le_refl 30)

/-! ## Claim C8: tag normalization -/

/-- Spec-side definition, following the claim's words: keep the first
occurrence of each element, dropping its later duplicates. -/
def firstOccurrences : List String → List String
  | [] => []
  | x :: xs => x :: firstOccurrences (xs.filter (fun y => y ≠ x))
termination_by l => l.length
decreasing_by
  exact Nat.lt_succ_of_le (List.length_filter_le _ _)

theorem pyIsSpace_eq_false_of_ge (c : Char) (h : 33 ≤ c.toNat) : pyIsSpace c = false := by
  unfold pyIsSpace
  simp
  omega

theorem toNat_ofNat_lower (n : Nat) (h1 : 65 ≤ n) (h2 : n ≤ 90) :
    (Char.ofNat (n + 32)).toNat = n + 32 := by
  have hv : Nat.isValidChar (n + 32) := Or.inl (by omega)
  rw [Char.ofNat, dif_pos hv]
  rfl

theorem pyIsSpace_pyLowerChar (c : Char) : pyIsSpace (pyLowerChar c) = pyIsSpace c := by
  unfold pyLowerChar
  split
  · rename_i h
    rw [pyIsSpace_eq_false_of_ge, pyIsSpace_eq_false_of_ge]
    · omega
    · rw [toNat_ofNat_lower c.toNat h.1 h.2]
      omega
  · rfl

theorem pyLowerChar_idem (c : Char) : pyLowerChar (pyLowerChar c) = pyLowerChar c := by
  unfold pyLowerChar
  split
  · rename_i h
    rw [toNat_ofNat_lower c.toNat h.1 h.2, if_neg (by omega)]
  · rfl

theorem dropWhile_self_idem (p : Char → Bool) (l : List Char) :
    (l.dropWhile p).dropWhile p = l.dropWhile p := by
  induction l with
  | nil => rfl
  | cons c rest ih =>
      by_cases hc : p c = true
      · rw [List.dropWhile_cons, if_pos hc, ih]
      · rw [List.dropWhile_cons, if_neg hc, List.dropWhile_cons, if_neg hc]

theorem head_not_of_dropWhile_self (p : Char → Bool) (l : List Char)
    (h : l.dropWhile p = l) (c : Char) (t : List Char) (hl : l = c :: t) : p c = false := by
  subst hl
  rw [List.dropWhile_cons] at h
  by_cases hc : p c = true
  · rw [if_pos hc] at h
    have h1 := (List.dropWhile_sublist (l := t) p).length_le
    have h2 := congrArg List.length h
    simp at h2
    omega
  · exact eq_false_of_ne_true hc

theorem stripEnds_idem (p : Char → Bool) (l : List Char) :
    let strip1 := fun m : List Char => ((m.dropWhile p).reverse.dropWhile p).reverse
    strip1 (strip1 l) = strip1 l := by
  intro strip1
  have ha : (l.dropWhile p).dropWhile p = l.dropWhile p := dropWhile_self_idem p l
  set a := l.dropWhile p with hadef
  set b := (a.reverse.dropWhile p).reverse with hbdef
  have hsplit : a = b ++ (a.reverse.takeWhile p).reverse := by
    calc a = a.reverse.reverse := (List.reverse_reverse a).symm
      _ = (a.reverse.takeWhile p ++ a.reverse.dropWhile p).reverse := by
          rw [List.takeWhile_append_dropWhile]
      _ = b ++ (a.reverse.takeWhile p).reverse := by rw [List.reverse_append]
  have hb_drop : b.dropWhile p = b := by
    cases hbv : b with
    | nil => rfl
    | cons c t =>
        have hc : p c = false := by
          have hform : a = c :: (t ++ (a.reverse.takeWhile p).reverse) := by
            conv_lhs => rw [hsplit, hbv]
            rw [List.cons_append]
          exact head_not_of_dropWhile_self p a ha c _ hform
        rw [List.dropWhile_cons, if_neg (by simp [hc])]
  have hrev_drop : b.reverse.dropWhile p = b.reverse := by
    rw [hbdef, List.reverse_reverse]
    exact dropWhile_self_idem p a.reverse
  show ((b.dropWhile p).reverse.dropWhile p).reverse = b
  rw [hb_drop, hrev_drop, List.reverse_reverse]

theorem pyStripL_idem (l : List Char) : pyStripL (pyStripL l) = pyStripL l := by
  unfold pyStripL
  exact stripEnds_idem pyIsSpace l

theorem pyStripL_map_lower (l : List Char) :
    pyStripL (l.map pyLowerChar) = (pyStripL l).map pyLowerChar := by
  unfold pyStripL
  have hp : (pyIsSpace ∘ pyLowerChar) = pyIsSpace := funext pyIsSpace_pyLowerChar
  simp only [List.dropWhile_map, ← List.map_reverse, hp]

theorem canon_idem (t : String) :
    pyLower (pyStrip (pyLower (pyStrip t))) = pyLower (pyStrip t) := by
  unfold pyLower pyStrip
  show (⟨(pyStripL ((pyStripL t.data).map pyLowerChar)).map pyLowerChar⟩ : String) = _
  rw [pyStripL_map_lower, pyStripL_idem, List.map_map]
  have : (pyLowerChar ∘ pyLowerChar) = pyLowerChar := funext pyLowerChar_idem
  rw [this]

theorem normalizeTagsGo_not_seen (l : List String) :
    ∀ (seen : List String) (t : String), t ∈ normalizeTagsGo seen l →
      seen.contains t = false := by
  induction l with
  | nil =>
      intro seen t h
      exact absurd h (List.not_mem_nil t)
  | cons raw rest ih =>
      intro seen t h
      simp only [normalizeTagsGo] at h
      split_ifs at h with h1 h2
      · exact ih seen t h
      · exact ih seen t h
      · rcases List.mem_cons.mp h with h3 | h3
        · rw [h3]
          exact eq_false_of_ne_true h2
        · have := ih _ t h3
          simp only [List.contains_cons] at this
          exact (Bool.or_eq_false_iff.mp this).2

theorem normalizeTagsGo_nodup (l : List String) :
    ∀ seen : List String, (normalizeTagsGo seen l).Nodup := by
  induction l with
  | nil => intro seen; exact List.nodup_nil
  | cons raw rest ih =>
      intro seen
      simp only [normalizeTagsGo]
      split_ifs with h1 h2
      · exact ih seen
      · exact ih seen
      · refine List.Nodup.cons ?_ (ih _)
        intro hmem
        have := normalizeTagsGo_not_seen rest _ _ hmem
        simp at this

theorem normalizeTagsGo_mem (l : List String) :
    ∀ (seen : List String) (t : String), t ∈ normalizeTagsGo seen l →
      t ≠ "" ∧ pyLower (pyStrip t) = t := by
  induction l with
  | nil =>
      intro seen t h
      exact absurd h (List.not_mem_nil t)
  | cons raw rest ih =>
      intro seen t h
      simp only [normalizeTagsGo] at h
      split_ifs at h with h1 h2
      · exact ih seen t h
      · exact ih seen t h
      · rcases List.mem_cons.mp h with h3 | h3
        · subst h3
          exact ⟨h1, canon_idem raw⟩
        · exact ih _ t h3

theorem normalizeTagsGo_spec (l : List String) :
    ∀ seen : List String,
      normalizeTagsGo seen l =
        firstOccurrences (((l.map (fun t => pyLower (pyStrip t))).filter
          (fun t => t ≠ "")).filter (fun t => ¬ seen.contains t)) := by
  induction l with
  | nil =>
      intro seen
      simp [normalizeTagsGo, firstOccurrences]
  | cons raw rest ih =>
      intro seen
      simp only [normalizeTagsGo, List.map_cons, List.filter_cons]
      by_cases h1 : pyLower (pyStrip raw) = ""
      · rw [if_pos h1,
          if_neg (show ¬(decide (pyLower (pyStrip raw) ≠ "") = true) by simp [h1]), ih seen]
      · rw [if_neg h1,
          if_pos (show decide (pyLower (pyStrip raw) ≠ "") = true by simp [h1]),
          List.filter_cons]
        by_cases h2 : seen.contains (pyLower (pyStrip raw)) = true
        · rw [if_pos h2,
            if_neg (show ¬(decide (¬ seen.contains (pyLower (pyStrip raw)) = true) = true) by
              rw [h2]; decide), ih seen]
        · rw [if_neg h2,
            if_pos (show decide (¬ seen.contains (pyLower (pyStrip raw)) = true) = true by
              rw [eq_false_of_ne_true h2]; decide), firstOccurrences]
          congr 1
          rw [ih (pyLower (pyStrip raw) :: seen)]
          congr 1
          simp only [List.filter_filter]
          apply List.filter_congr
          intro t _
          by_cases ht : t = pyLower (pyStrip raw) <;> by_cases hs : seen.contains t = true <;>
            by_cases he : t = "" <;>
            simp [ht, hs, he, List.contains_cons]

theorem map_eq_self_of_mem {α : Type} (l : List α) (f : α → α) (h : ∀ a ∈ l, f a = a) :
    l.map f = l := by
  induction l with
  | nil => rfl
  | cons a rest ih =>
      rw [List.map_cons, h a (by simp), ih (fun b hb => h b (by simp [hb]))]

theorem firstOccurrences_of_nodup (l : List String) (h : l.Nodup) :
    firstOccurrences l = l := by
  induction l using firstOccurrences.induct with
  | case1 => simp [firstOccurrences]
  | case2 x xs ih =>
      rw [firstOccurrences]
      have hx : x ∉ xs := (List.nodup_cons.mp h).1
      have hf : xs.filter (fun y => y ≠ x) = xs :=
        List.filter_eq_self.mpr (fun a ha => by
          simp only [ne_eq, decide_eq_true_eq]
          intro hax
          exact hx (hax ▸ ha))
      rw [hf] at ih ⊢
      rw [ih (List.nodup_cons.mp h).2]

/-- C8: tag normalization is idempotent and total, and its result keeps the
first occurrence of each case-insensitively distinct tag in original order,
each tag trimmed and lowercased, with tags empty after trimming dropped. -/
theorem c8_normalize_tags (x : List String) :
    normalize_tags (normalize_tags x) = normalize_tags x ∧
    normalize_tags x =
      firstOccurrences ((x.map (fun t => pyLower (pyStrip t))).filter (fun t => t ≠ "")) := by
  have spec : ∀ y : List String, normalize_tags y =
      firstOccurrences ((y.map (fun t => pyLower (pyStrip t))).filter (fun t => t ≠ "")) := by
    intro y
    unfold normalize_tags
    rw [normalizeTagsGo_spec]
    congr 1
    exact List.filter_eq_self.mpr (fun a _ => by simp)
  refine ⟨?_, spec x⟩
  rw [spec (normalize_tags x)]
  rw [map_eq_self_of_mem (normalize_tags x) _ (fun t ht => (normalizeTagsGo_mem x [] t ht).2)]
  rw [List.filter_eq_self.mpr (fun t ht => by
    simp [(normalizeTagsGo_mem x [] t ht).1])]
  exact firstOccurrences_of_nodup _ (normalizeTagsGo_nodup x [])

/-! ## Claim C6: block-list tag parsing -/

theorem parse_kv_empty : _parse_key_value_line "" = none := rfl

/-- C6 (amended): a `tags:` line with empty (or `[]`) inline value enters the
block-list branch; while in it, each line starting with `-` (after
stripping) contributes one raw tag and blank lines are skipped without
ending the block; the first non-blank non-dash line ends block-list
consumption (processing it exactly as it would be outside the block); a
non-empty inline tags value extends the tag list directly and does not
enter the block-list branch. -/
theorem c6_tags_block_list :
    (∀ (st : FMState) (raw key value : String),
      st.inTagsList = false →
      _parse_key_value_line (pyStrip raw) = some (key, value) →
      pyLower key = "tags" →
      (value = "" ∨ value = "[]") →
      fmStep st raw = { st with inTagsList := true }) ∧
    (∀ (st : FMState) (ds : List String),
      st.inTagsList = true →
      (∀ d ∈ ds, pyStrip d = "" ∨ strStartsWith (pyStrip d) "-" = true) →
      ds.foldl fmStep st = { st with tags := st.tags ++ ds.filterMap (fun d =>
        if strStartsWith (pyStrip d) "-" = true then
          some (pyStripQuotes (pyStrip (strDrop (pyStrip d) 1)))
        else none) }) ∧
    (∀ (st : FMState) (stop : String),
      st.inTagsList = true →
      pyStrip stop ≠ "" →
      strStartsWith (pyStrip stop) "-" = false →
      fmStep st stop = fmStep { st with inTagsList := false } stop) ∧
    (∀ (st : FMState) (raw key value : String),
      st.inTagsList = false →
      _parse_key_value_line (pyStrip raw) = some (key, value) →
      pyLower key = "tags" →
      value ≠ "" → value ≠ "[]" →
      fmStep st raw = { st with tags := st.tags ++ _parse_tags_value value }) := by
  refine ⟨?_, ?_, ?_, ?_⟩
  · intro st raw key value hitl hkv hlower hval
    obtain ⟨ti, de, tg, itl⟩ := st
    simp only [FMState.inTagsList] at hitl
    subst hitl
    have hline : pyStrip raw ≠ "" := by
      intro h
      rw [h, parse_kv_empty] at hkv
      exact Option.noConfusion hkv
    rcases hval with hval | hval <;>
      simp [fmStep, hline, hkv, hlower, hval]
  · intro st ds hst hds
    induction ds generalizing st with
    | nil => simp
    | cons d rest ih =>
        rcases hds d (by simp) with hd | hd
        · have hstep : fmStep st d = st := by
            simp [fmStep, hd]
          have hdash : strStartsWith (pyStrip d) "-" = false := by
            rw [hd]
            decide
          rw [List.foldl_cons, hstep, ih st hst (fun e he => hds e (by simp [he]))]
          rw [List.filterMap_cons, hdash]
          simp
        · have hne : pyStrip d ≠ "" := by
            intro h
            rw [h] at hd
            exact absurd hd (by decide)
          obtain ⟨ti, de, tg, itl⟩ := st
          simp only [FMState.inTagsList] at hst
          subst hst
          have hstep : fmStep ⟨ti, de, tg, true⟩ d =
              ⟨ti, de, tg ++ [pyStripQuotes (pyStrip (strDrop (pyStrip d) 1))], true⟩ := by
            simp [fmStep, hne, hd]
          rw [List.foldl_cons, hstep,
            ih ⟨ti, de, tg ++ [pyStripQuotes (pyStrip (strDrop (pyStrip d) 1))], true⟩ rfl
              (fun e he => hds e (by simp [he]))]
          rw [List.filterMap_cons, hd]
          simp
  · intro st stop hst hne hdash
    obtain ⟨ti, de, tg, itl⟩ := st
    simp only [FMState.inTagsList] at hst
    subst hst
    simp [fmStep, hne, hdash]
  · intro st raw key value hitl hkv hlower h4 h5
    obtain ⟨ti, de, tg, itl⟩ := st
    simp only [FMState.inTagsList] at hitl
    subst hitl
    have hline : pyStrip raw ≠ "" := by
      intro h
      rw [h, parse_kv_empty] at hkv
      exact Option.noConfusion hkv
    simp [fmStep, hline, hkv, hlower, h4, h5]

theorem c6_tags_block_list_witness :
    fmStep ⟨"", "", [], false⟩ "tags:" = ⟨"", "", [], true⟩ ∧
    ["- a", "", "- b"].foldl fmStep ⟨"T", "D", [], true⟩ = ⟨"T", "D", ["a", "b"], true⟩ ∧
    fmStep ⟨"T", "D", ["a"], true⟩ "description: D2" =
      fmStep ⟨"T", "D", ["a"], false⟩ "description: D2" ∧
    fmStep ⟨"", "", [], false⟩ "tags: [x]" = ⟨"", "", ["x"], false⟩ := by
  refine ⟨?_, ?_, ?_, ?_⟩
  · exact c6_tags_block_list.1 ⟨"", "", [], false⟩ "tags:" "tags" "" rfl (by decide) (by decide)
      (Or.inl rfl)
  · exact (c6_tags_block_list.2.1 ⟨"T", "D", [], true⟩ ["- a", "", "- b"] rfl
      (by decide)).trans (by decide)
  · exact c6_tags_block_list.2.2.1 ⟨"T", "D", ["a"], true⟩ "description: D2" rfl (by decide)
      (by decide)
  · exact (c6_tags_block_list.2.2.2 ⟨"", "", [], false⟩ "tags: [x]" "tags" "[x]" rfl (by decide)
      (by decide) (by decide) (by decide)).trans (by decide)

/-- C6 counterexample to the claim as stated: in the document below, the
first non-dash line after the `tags:` line is the blank line between
`- a` and `- b`; were block-list consumption ended by every non-dash line,
the tags would be `["a"]`, but the code skips blank lines without leaving
the block and yields `["a", "b"]`. -/
theorem c6_counterexample :
    parse_skill_markdown "---\ntitle: T\ndescription: D\ntags:\n- a\n\n- b\n---\n" =
      .ok ⟨"T", "D", ["a", "b"]⟩ ∧ (["a", "b"] : List String) ≠ ["a"] :=
  ⟨rfl, by decide⟩

/-! ## Claim C7: structural errors during rewrite -/

theorem findDelim_none (l : List String) (h : ∀ x ∈ l, pyStrip x ≠ "---") :
    findDelim l = none := by
  induction l with
  | nil => rfl
  | cons a rest ih =>
      rw [findDelim, if_neg (h a (by simp)), ih (fun x hx => h x (by simp [hx]))]
      rfl

theorem findDelim_append (front : List String) (close : String) (body : List String)
    (hfront : ∀ l ∈ front, pyStrip l ≠ "---") (hclose : pyStrip close = "---") :
    findDelim (front ++ close :: body) = some front.length := by
  induction front with
  | nil =>
      rw [List.nil_append, findDelim, if_pos hclose]
      rfl
  | cons a rest ih =>
      rw [List.cons_append, findDelim, if_neg (hfront a (by simp)),
        ih (fun x hx => hfront x (by simp [hx]))]
      rfl

/-- C7: a rewrite on a document whose first line is not the header delimiter,
or that has no closing delimiter, fails with the corresponding error, and no
write is issued: the target file's contents are left unchanged. -/
theorem c7_rewrite_structural_errors :
    (∀ (text : String) (new_tags : List String) (l0 : String) (rest : List String),
      pySplitlinesKeep text = l0 :: rest →
      pyStrip l0 ≠ "---" →
      _update_tags_in_skill_md text new_tags = .error "missing_frontmatter" ∧
        applyUpdate text new_tags = text) ∧
    (∀ (text : String) (new_tags : List String) (l0 : String) (rest : List String),
      pySplitlinesKeep text = l0 :: rest →
      pyStrip l0 = "---" →
      (∀ l ∈ rest, pyStrip l ≠ "---") →
      _update_tags_in_skill_md text new_tags = .error "unterminated_frontmatter" ∧
        applyUpdate text new_tags = text) := by
  constructor
  · intro text new_tags l0 rest hsplit h0
    have herr : _update_tags_in_skill_md text new_tags = .error "missing_frontmatter" := by
      unfold _update_tags_in_skill_md
      rw [hsplit]
      exact if_pos h0
    refine ⟨herr, ?_⟩
    unfold applyUpdate
    rw [herr]
  · intro text new_tags l0 rest hsplit h0 hrest
    have herr : _update_tags_in_skill_md text new_tags = .error "unterminated_frontmatter" := by
      unfold _update_tags_in_skill_md
      rw [hsplit]
      dsimp only
      rw [if_neg (by simp [h0]), findDelim_none rest hrest]
    refine ⟨herr, ?_⟩
    unfold applyUpdate
    rw [herr]

theorem c7_rewrite_structural_errors_witness :
    (_update_tags_in_skill_md "no header\nrest" ["a"] = .error "missing_frontmatter" ∧
      applyUpdate "no header\nrest" ["a"] = "no header\nrest") ∧
    (_update_tags_in_skill_md "---\ntitle: X\n" ["a"] = .error "unterminated_frontmatter" ∧
      applyUpdate "---\ntitle: X\n" ["a"] = "---\ntitle: X\n") :=
  ⟨c7_rewrite_structural_errors.1 "no header\nrest" ["a"] "no header\n" ["rest"]
      (by decide) (by decide),
   c7_rewrite_structural_errors.2 "---\ntitle: X\n" ["a"] "---\n" ["title: X\n"]
      (by decide) (by decide) (by decide)⟩

/-! ## Claim C2: the rewrite frame property -/

theorem strEqOfData (a b : String) (h : a.data = b.data) : a = b := by
  cases a
  cases b
  exact congrArg String.mk h

theorem pyJoinL_nil (ls : List (List Char)) : pyJoinL [] ls = ls.flatten := by
  induction ls with
  | nil => rfl
  | cons x rest ih =>
      cases rest with
      | nil => simp [pyJoinL]
      | cons y t =>
          rw [pyJoinL, ih, List.flatten_cons]
          simp

theorem pyJoin_nil_cons (a : String) (xs : List String) :
    pyJoin "" (a :: xs) = a ++ pyJoin "" xs := by
  apply strEqOfData
  rw [String.data_append]
  show pyJoinL [] ((a :: xs).map (·.data)) = a.data ++ pyJoinL [] (xs.map (·.data))
  rw [List.map_cons, pyJoinL_nil, pyJoinL_nil, List.flatten_cons]

theorem pyJoin_nil_append (xs ys : List String) :
    pyJoin "" (xs ++ ys) = pyJoin "" xs ++ pyJoin "" ys := by
  apply strEqOfData
  rw [String.data_append]
  show pyJoinL [] ((xs ++ ys).map (·.data)) =
    pyJoinL [] (xs.map (·.data)) ++ pyJoinL [] (ys.map (·.data))
  rw [List.map_append, pyJoinL_nil, pyJoinL_nil, pyJoinL_nil, List.flatten_append]

theorem splitLinesAux_flatten (cur l : List Char) :
    (splitLinesAux true cur l).flatten = cur.reverse ++ l := by
  induction cur, l using splitLinesAux.induct true with
  | case1 cur h =>
      rw [List.isEmpty_iff] at h
      subst h
      rfl
  | case2 cur h =>
      show (if cur.isEmpty then [] else [cur.reverse]).flatten = cur.reverse ++ []
      rw [if_neg h]
      simp
  | case3 cur rest ih =>
      show ((cur.reverse ++ ['\r', '\n']) :: splitLinesAux true [] rest).flatten =
        cur.reverse ++ '\r' :: '\n' :: rest
      rw [List.flatten_cons, ih]
      simp
  | case4 cur c rest hne hbr ih =>
      rw [splitLinesAux.eq_def]
      split
      · rename_i heq
        exact absurd heq (by simp)
      · rename_i rest2 heq
        simp only [List.cons.injEq] at heq
        exact (hne rest2 heq.1 heq.2).elim
      · rename_i c2 rest2 hg heq
        simp only [List.cons.injEq] at heq
        obtain ⟨hc, hrest⟩ := heq
        subst hc
        subst hrest
        rw [if_pos hbr, List.flatten_cons, ih]
        simp
  | case5 cur c rest hne hnbr ih =>
      rw [splitLinesAux.eq_def]
      split
      · rename_i heq
        exact absurd heq (by simp)
      · rename_i rest2 heq
        simp only [List.cons.injEq] at heq
        exact (hne rest2 heq.1 heq.2).elim
      · rename_i c2 rest2 hg heq
        simp only [List.cons.injEq] at heq
        obtain ⟨hc, hrest⟩ := heq
        subst hc
        subst hrest
        rw [if_neg (by simpa using hnbr), ih]
        simp

theorem pySplitlinesKeep_join (text : String) :
    pyJoin "" (pySplitlinesKeep text) = text := by
  apply strEqOfData
  show pyJoinL [] (((splitLinesAux true [] text.data).map
      (fun l => (⟨l⟩ : String))).map (·.data)) = text.data
  rw [List.map_map]
  have hmm : (((fun s : String => s.data) ∘ fun l : List Char => (⟨l⟩ : String))) =
      (fun l : List Char => l) := rfl
  rw [hmm, List.map_id', pyJoinL_nil, splitLinesAux_flatten]
  rfl

theorem rewriteFront_fold (ntl : String) (ls : List String)
    (h : ∀ l ∈ ls, isTagsLine l = false) (acc : List String × Bool) :
    ls.foldl (fun (acc : List String × Bool) raw =>
        if isTagsLine raw then (acc.1 ++ [ntl], true) else (acc.1 ++ [raw], acc.2)) acc =
      (acc.1 ++ ls, acc.2) := by
  induction ls generalizing acc with
  | nil => simp
  | cons a rest ih =>
      rw [List.foldl_cons, if_neg (by simp [h a (by simp)])]
      rw [ih (fun l hl => h l (by simp [hl])) (acc.1 ++ [a], acc.2)]
      simp

theorem rewriteFront_no_tags (front : List String) (ntl : String)
    (h : ∀ l ∈ front, isTagsLine l = false) :
    rewriteFront front ntl = front ++ [ntl] := by
  unfold rewriteFront
  rw [rewriteFront_fold ntl front h ([], false)]
  simp

theorem rewriteFront_single (f1 : List String) (t : String) (f2 : List String) (ntl : String)
    (h1 : ∀ l ∈ f1, isTagsLine l = false) (ht : isTagsLine t = true)
    (h2 : ∀ l ∈ f2, isTagsLine l = false) :
    rewriteFront (f1 ++ t :: f2) ntl = f1 ++ ntl :: f2 := by
  unfold rewriteFront
  rw [List.foldl_append, rewriteFront_fold ntl f1 h1 ([], false), List.foldl_cons]
  simp [ht, rewriteFront_fold ntl f2 h2]

/-- C2: on a document whose first line is the header delimiter and that has
a closing delimiter, the rewrite replaces the single header line starting
(case-insensitively, ignoring leading whitespace) with `tags:` by the new
bracketed, comma-separated tag list, or appends such a line to the end of
the header body when none exists; every other header line, both delimiter
lines, and the entire body after the closing delimiter are copied through
unchanged, byte-for-byte (the final conjunct recovers the original text
from exactly those pieces). -/
theorem c2_rewrite_frame (text : String) (new_tags : List String)
    (l0 close : String) (front body : List String)
    (hsplit : pySplitlinesKeep text = l0 :: (front ++ close :: body))
    (h0 : pyStrip l0 = "---")
    (hfront : ∀ l ∈ front, pyStrip l ≠ "---")
    (hclose : pyStrip close = "---") :
    ((∀ l ∈ front, isTagsLine l = false) →
      _update_tags_in_skill_md text new_tags =
        .ok (l0 ++ pyJoin "" front ++ ("tags: " ++ _format_tags_inline new_tags ++ "\n") ++
          close ++ pyJoin "" body)) ∧
    (∀ f1 t f2, front = f1 ++ t :: f2 → isTagsLine t = true →
      (∀ l ∈ f1, isTagsLine l = false) → (∀ l ∈ f2, isTagsLine l = false) →
      _update_tags_in_skill_md text new_tags =
        .ok (l0 ++ pyJoin "" f1 ++ ("tags: " ++ _format_tags_inline new_tags ++ "\n") ++
          pyJoin "" f2 ++ close ++ pyJoin "" body)) ∧
    text = l0 ++ pyJoin "" front ++ close ++ pyJoin "" body := by
  have hupd : _update_tags_in_skill_md text new_tags =
      .ok (l0 ++ pyJoin "" (rewriteFront front
          ("tags: " ++ _format_tags_inline new_tags ++ "\n")) ++ close ++ pyJoin "" body) := by
    unfold _update_tags_in_skill_md
    rw [hsplit]
    dsimp only
    rw [if_neg (by simp [h0]), findDelim_append front close body hfront hclose]
    dsimp only
    have htake : (front ++ close :: body).take front.length = front := List.take_left front _
    have hdrop : (front ++ close :: body).drop front.length = close :: body :=
      List.drop_left front _
    have hdrop1 : (front ++ close :: body).drop (front.length + 1) = body := by
      rw [← List.drop_drop, hdrop]
      rfl
    rw [htake, hdrop, hdrop1]
    rfl
  refine ⟨?_, ?_, ?_⟩
  · intro hno
    rw [hupd, rewriteFront_no_tags front _ hno, pyJoin_nil_append]
    apply congrArg
    apply strEqOfData
    simp only [String.data_append]
    have hsingle : (pyJoin "" ["tags: " ++ _format_tags_inline new_tags ++ "\n"]).data =
        ("tags: " ++ _format_tags_inline new_tags ++ "\n").data := rfl
    rw [hsingle]
    simp only [String.data_append, List.append_assoc]
  · intro f1 t f2 hf ht h1 h2
    subst hf
    rw [hupd, rewriteFront_single f1 t f2 _ h1 ht h2, pyJoin_nil_append, pyJoin_nil_cons]
    apply congrArg
    apply strEqOfData
    simp only [String.data_append, List.append_assoc]
  · have hj := pySplitlinesKeep_join text
    rw [hsplit, pyJoin_nil_cons, pyJoin_nil_append, pyJoin_nil_cons] at hj
    rw [← hj]
    apply strEqOfData
    simp only [String.data_append, List.append_assoc]

theorem c2_rewrite_frame_witness :
    _update_tags_in_skill_md "---\ntitle: X\ndescription: Y\ntags: [a]\n---\nbody" ["b", "c"] =
      .ok "---\ntitle: X\ndescription: Y\ntags: [b, c]\n---\nbody" ∧
    "---\ntitle: X\ndescription: Y\ntags: [a]\n---\nbody" =
      "---\n" ++ pyJoin "" ["title: X\n", "description: Y\n", "tags: [a]\n"] ++ "---\n" ++
        pyJoin "" ["body"] := by
  have h := c2_rewrite_frame "---\ntitle: X\ndescription: Y\ntags: [a]\n---\nbody" ["b", "c"]
    "---\n" "---\n" ["title: X\n", "description: Y\n", "tags: [a]\n"] ["body"]
    (by decide) (by decide) (by decide) (by decide)
  constructor
  · have h2 := h.2.1 ["title: X\n", "description: Y\n"] "tags: [a]\n" [] rfl
      (by decide) (by decide) (by decide)
    rw [h2]
    exact congrArg Except.ok (by decide)
  · exact h.2.2

/-! ## Claim C5: cache loading returns absent on bad files -/

/-- C5 (amended): load returns absent (`.ok none`) — and in particular never
raises — whenever the cache file is missing, not a regular file, unreadable
or unparseable; whenever the parsed document is not an object; whenever the
version field is missing, or holds a value that the host language's equality
distinguishes from 1 (any integer other than 1, a string, null, a list or an
object; the boolean `true`, however, compares equal to 1 and is accepted);
and whenever the skills value is not a list. -/
theorem c5_load_absent :
    (load_index .missing = .ok none) ∧
    (load_index .notFile = .ok none) ∧
    (load_index .unreadable = .ok none) ∧
    (∀ v : JValue, (∀ fields, v ≠ .jobj fields) → load_index (.parsed v) = .ok none) ∧
    (∀ fields, lookupLast fields "version" = none →
      load_index (.parsed (.jobj fields)) = .ok none) ∧
    (∀ fields v, lookupLast fields "version" = some v → pyEqOne v = false →
      load_index (.parsed (.jobj fields)) = .ok none) ∧
    (∀ fields v, lookupLast fields "version" = some v → pyEqOne v = true →
      (∀ items, pyGet fields "skills" (.jarr []) ≠ .jarr items) →
      load_index (.parsed (.jobj fields)) = .ok none) := by
  refine ⟨rfl, rfl, rfl, ?_, ?_, ?_, ?_⟩
  · intro v hv
    cases v with
    | jobj fields => exact absurd rfl (hv fields)
    | jnull => rfl
    | jbool b => rfl
    | jint n => rfl
    | jstr s => rfl
    | jarr items => rfl
  · intro fields h
    unfold load_index
    dsimp only
    rw [h]
  · intro fields v h1 h2
    unfold load_index
    dsimp only
    rw [h1]
    dsimp only
    rw [h2]
    rfl
  · intro fields v h1 h2 hitems
    unfold load_index
    dsimp only
    rw [h1]
    dsimp only
    rw [h2]
    cases hg : pyGet fields "skills" (.jarr []) with
    | jarr items => exact absurd hg (hitems items)
    | jnull => rfl
    | jbool b => rfl
    | jint n => rfl
    | jstr s => rfl
    | jobj f => rfl

theorem c5_load_absent_witness :
    load_index (.parsed (.jobj [("version", .jint 2), ("skills", .jarr [])])) = .ok none ∧
    load_index (.parsed (.jobj [("skills", .jarr [])])) = .ok none ∧
    load_index (.parsed (.jobj [("version", .jint 1), ("skills", .jstr "xs")])) = .ok none ∧
    load_index (.parsed (.jstr "not a dict")) = .ok none :=
  ⟨c5_load_absent.2.2.2.2.2.1 [("version", .jint 2), ("skills", .jarr [])] (.jint 2) rfl rfl,
   c5_load_absent.2.2.2.2.1 [("skills", .jarr [])] rfl,
   c5_load_absent.2.2.2.2.2.2 [("version", .jint 1), ("skills", .jstr "xs")] (.jint 1) rfl rfl
     (fun _ h => JValue.noConfusion h),
   c5_load_absent.2.2.2.1 (.jstr "not a dict") (fun _ h => JValue.noConfusion h)⟩

/-- C5 counterexample to the claim as stated: a cache file whose version
field holds the boolean `true` — a value that is not the integer 1 — is
accepted rather than treated as absent, because the decoded `True` compares
equal to `1` in the host language: load returns a present (empty)
ScanResult, not absent. -/
theorem c5_counterexample :
    load_index (.parsed (.jobj [("version", .jbool true), ("skills", .jarr [])])) ≠
      .ok none := by
  intro h
  have h2 : load_index (.parsed (.jobj [("version", .jbool true), ("skills", .jarr [])])) =
      .ok (some ⟨[], build_tree []⟩) := rfl
  rw [h2] at h
  exact Option.noConfusion (Except.ok.inj h)

/-! ## Claim C1: save/load round trip -/

theorem dict_to_skill_roundtrip (r : SkillRecord)
    (h1 : ∀ t ∈ r.frontmatter.tags, pyStrip t ≠ "")
    (h2 : ∀ p ∈ r.category_path, pyStrip p ≠ "")
    (h3 : ∀ i ∈ r.tag_issues, pyStrip i ≠ "") :
    _dict_to_skill (_skill_to_dict r) = .ok r := by
  obtain ⟨sid, sroot, spath, cpath, ⟨ti, de, tags⟩, snap, issues⟩ := r
  have e : _dict_to_skill (_skill_to_dict ⟨sid, sroot, spath, cpath, ⟨ti, de, tags⟩, snap, issues⟩) =
      .ok ⟨sid, sroot, spath,
        ((cpath.map JValue.jstr).map pyStr).filter (fun s => pyStrip s ≠ ""),
        ⟨ti, de, ((tags.map JValue.jstr).map pyStr).filter (fun s => pyStrip s ≠ "")⟩, snap,
        ((issues.map JValue.jstr).map pyStr).filter (fun s => pyStrip s ≠ "")⟩ := rfl
  rw [e]
  have hmap : ∀ (l : List String), (∀ t ∈ l, pyStrip t ≠ "") →
      ((l.map JValue.jstr).map pyStr).filter (fun s => pyStrip s ≠ "") = l := by
    intro l hl
    rw [List.map_map, show (pyStr ∘ JValue.jstr) = id from funext fun s => rfl, List.map_id]
    exact List.filter_eq_self.mpr (fun t ht => by simp [hl t ht])
  rw [hmap tags h1, hmap cpath h2, hmap issues h3]

theorem collectSkills_roundtrip (skills : List SkillRecord)
    (h : ∀ r ∈ skills, (∀ t ∈ r.frontmatter.tags, pyStrip t ≠ "") ∧
      (∀ p ∈ r.category_path, pyStrip p ≠ "") ∧ (∀ i ∈ r.tag_issues, pyStrip i ≠ "")) :
    collectSkills (skills.map fun s => .jobj (_skill_to_dict s)) = .ok skills := by
  induction skills with
  | nil => rfl
  | cons r rest ih =>
      obtain ⟨hr1, hr2, hr3⟩ := h r (by simp)
      have hd := dict_to_skill_roundtrip r hr1 hr2 hr3
      have hrest := ih (fun q hq => h q (by simp [hq]))
      rw [List.map_cons, collectSkills, hd, hrest]
      rfl

/-- C1 (amended): saving a ScanResult and loading it back yields the same
record sequence and the tree rebuilt from those records, provided every
record's tags, category-path segments and tag-issue entries are non-blank
(contain a character that survives stripping) — as every scan-produced
record's are.  The claim's no-cyclical-paths proviso is vacuous here: the
embedding's trees are finite inductive values and cannot contain cycles. -/
theorem c1_save_load_roundtrip (skills : List SkillRecord) (tree : TreeNode)
    (h : ∀ r ∈ skills, (∀ t ∈ r.frontmatter.tags, pyStrip t ≠ "") ∧
      (∀ p ∈ r.category_path, pyStrip p ≠ "") ∧ (∀ i ∈ r.tag_issues, pyStrip i ≠ "")) :
    load_index (save_index ⟨skills, tree⟩) = .ok (some ⟨skills, build_tree skills⟩) := by
  have e : load_index (save_index ⟨skills, tree⟩) =
      (do
        let sk ← collectSkills (skills.map fun s => JValue.jobj (_skill_to_dict s))
        Except.ok (some ⟨sk, build_tree sk⟩)) := rfl
  rw [e, collectSkills_roundtrip skills h]
  rfl

/-- A record whose fields are all non-blank. -/
def goodRecord : SkillRecord :=
  ⟨"r:cat/SKILL.md", "/r", "/r/cat/SKILL.md", ["cat"], ⟨"t", "d", ["a"]⟩, "d", ["missing_tags"]⟩

theorem c1_save_load_roundtrip_witness :
    load_index (save_index ⟨[goodRecord], build_tree [goodRecord]⟩) =
      .ok (some ⟨[goodRecord], build_tree [goodRecord]⟩) :=
  c1_save_load_roundtrip [goodRecord] (build_tree [goodRecord]) (by decide)

/-- A record carrying the single tag `""`. -/
def badRecord : SkillRecord := ⟨"id", "root", "path", [], ⟨"t", "d", [""]⟩, "snap", []⟩

/-- C1 counterexample to the claim as stated: a ScanResult (its records free
of cyclical paths — the embedding's trees cannot contain cycles) holding one
record with the single tag `""` does not round-trip: `_dict_to_skill` drops
entries that are empty after stripping, so the loaded record's tag list is
empty and differs from the saved one. -/
theorem c1_counterexample :
    load_index (save_index ⟨[badRecord], build_tree [badRecord]⟩) ≠
      .ok (some ⟨[badRecord], build_tree [badRecord]⟩) := by
  intro h
  have h2 : load_index (save_index ⟨[badRecord], build_tree [badRecord]⟩) =
      .ok (some ⟨[⟨"id", "root", "path", [], ⟨"t", "d", []⟩, "snap", []⟩],
        build_tree [⟨"id", "root", "path", [], ⟨"t", "d", []⟩, "snap", []⟩]⟩) := rfl
  rw [h2] at h
  have h3 := Option.some.inj (Except.ok.inj h)
  have h4 : ([⟨"id", "root", "path", [], ⟨"t", "d", []⟩, "snap", []⟩] : List SkillRecord) =
      [badRecord] := congrArg ScanResult.skills h3
  exact absurd h4 (by decide)
